import Mathlib

/-!
Verification of the magnetism analysis module of py4vasp
(`src/py4vasp/calculation/_magnetism.py`).

The raw data consists of n-dimensional numeric arrays (numpy); we model an
array as a shape (list of axis lengths) together with a total data function
from index lists to rationals.  Entries outside the shape are junk and all
stated properties only constrain in-shape indices.  The display-rescaling
step involves Euclidean norms, which we model over the real numbers.
-/

/-- An n-dimensional numeric array: a shape and a (total) data function.
Models the numpy `ndarray` values flowing through the magnetism module. -/
structure NDArray where
  shape : List Nat
  data : List Nat → ℚ

/-- Insert a value at a given position of an index list
(model of the index bookkeeping behind `np.moveaxis` / `np.sum(axis=...)`). -/
def insertAt : Nat → Nat → List Nat → List Nat
  | 0, x, l => x :: l
  | _ + 1, x, [] => [x]
  | n + 1, x, a :: l => a :: insertAt n x l

/-- Remove the entry at a given position of a list. -/
def eraseAt : Nat → List Nat → List Nat
  | _, [] => []
  | 0, _ :: l => l
  | n + 1, a :: l => a :: eraseAt n l

/-- The length of axis `i` of a shape (0 for a missing axis). -/
def dimAt : List Nat → Nat → Nat
  | [], _ => 0
  | a :: _, 0 => a
  | _ :: l, n + 1 => dimAt l n

/-- Model of `np.moveaxis(a, src, -1)`: the axis at position `src` becomes the
last axis; reading the result at `ix` reads `a` at the index obtained by
inserting the last component of `ix` back at position `src`. -/
def moveaxis_to_last (a : NDArray) (src : Nat) : NDArray where
  shape := eraseAt src a.shape ++ [dimAt a.shape src]
  data := fun ix => a.data (insertAt src (ix.getLastD 0) ix.dropLast)

/-- Model of `np.sum(a, axis=pos)` (with `pos` an absolute axis position). -/
def sum_axis (a : NDArray) (pos : Nat) : NDArray where
  shape := eraseAt pos a.shape
  data := fun ix => ∑ j ∈ Finset.range (dimAt a.shape pos), a.data (insertAt pos j ix)

/-- Model of `np.zeros_like(a)`. -/
def zeros_like (a : NDArray) : NDArray where
  shape := a.shape
  data := fun _ => 0

/-- Elementwise sum of two same-shaped arrays (numpy `+`). -/
def NDArray.add (a b : NDArray) : NDArray where
  shape := a.shape
  data := fun ix => a.data ix + b.data ix

/-- Modelled from the spec: the StepSelector capability (the `_slice.Mixin`
base class is not part of the examined sources).  A step selection is either
a single integer index or a `start:stop` slice with unit step, exactly the
"single step or slice" access pattern the spec describes. -/
inductive Steps where
  | single (i : Int)
  | slice (start stop : Option Int)
deriving DecidableEq

/-- Modelled from the spec: `_is_slice` of the step-selection mixin. -/
def Steps.isSlice : Steps → Bool
  | .single _ => false
  | .slice _ _ => true

/-- Modelled from the spec: resolution of a single integer index against an
axis of length `n` by the external array abstraction (numpy): negative
indices count from the end, and an index outside `[-n, n)` is an indexing
failure (`none`). -/
def resolve_index (n : Nat) (i : Int) : Option Nat :=
  if 0 ≤ i then (if i < (n : Int) then some i.toNat else none)
  else (if 0 ≤ (n : Int) + i then some ((n : Int) + i).toNat else none)

/-- Modelled from the spec: clamping of one slice bound against axis length
`n` by the external array abstraction (numpy slice semantics). -/
def clamp_bound (n : Nat) (dflt : Nat) : Option Int → Nat
  | none => dflt
  | some v => if v < 0 then ((n : Int) + v).toNat else min v.toNat n

/-- Modelled from the spec: resolution of a `start:stop` slice against axis
length `n`, returning the first selected index and the number of selected
indices.  Slices are clipped, never rejected (numpy slice semantics). -/
def resolve_slice (n : Nat) (s e : Option Int) : Nat × Nat :=
  let lo := clamp_bound n 0 s
  let hi := clamp_bound n n e
  (lo, hi - lo)

/-- Outcome of the probe `np.zeros(n)[steps]` used by the module for bounds
checking: a single index fails outside `[-n, n)`; a slice never fails. -/
def steps_within_bounds (n : Nat) : Steps → Bool
  | .single i => (resolve_index n i).isSome
  | .slice _ _ => true

/-- Model of `array[steps, c]` for the raw arrays of shape
`[step, component, atom, orbital]`: select steps on axis 0 and the fixed
component `c` on axis 1. -/
def step_comp (a : NDArray) (st : Steps) (c : Nat) : NDArray :=
  match st with
  | .single i =>
    match resolve_index (dimAt a.shape 0) i with
    | some k => { shape := a.shape.tail.tail, data := fun ix => a.data (k :: c :: ix) }
    | none => { shape := a.shape.tail.tail, data := fun _ => 0 }
  | .slice s e =>
    { shape := (resolve_slice (dimAt a.shape 0) s e).2 :: a.shape.tail.tail,
      data := fun ix =>
        a.data (((resolve_slice (dimAt a.shape 0) s e).1 + ix.headD 0) :: c :: ix.tail) }

/-- Model of `array[steps, 1:]`: select steps on axis 0 and drop the first
(charge) component of axis 1. -/
def step_comp_tail (a : NDArray) (st : Steps) : NDArray :=
  match st with
  | .single i =>
    match resolve_index (dimAt a.shape 0) i with
    | some k =>
      { shape := (dimAt a.shape 1 - 1) :: a.shape.tail.tail,
        data := fun ix => a.data (k :: (ix.headD 0 + 1) :: ix.tail) }
    | none => { shape := (dimAt a.shape 1 - 1) :: a.shape.tail.tail, data := fun _ => 0 }
  | .slice s e =>
    { shape := (resolve_slice (dimAt a.shape 0) s e).2 ::
        (dimAt a.shape 1 - 1) :: a.shape.tail.tail,
      data := fun ix =>
        a.data (((resolve_slice (dimAt a.shape 0) s e).1 + ix.headD 0) ::
          (ix.tail.headD 0 + 1) :: ix.tail.tail) }

/-- The raw magnetism record: `spin_moments` of shape
`[step, component, atom, orbital]` and optionally absent `orbital_moments`
(`none` models `orbital_moments.is_none()`). -/
structure RawData where
  spin_moments : NDArray
  orbital_moments : Option NDArray

/-- The two user-facing error kinds of the module. -/
inductive MagError where
  | incorrectUsage (msg : String) : MagError
  | noData (msg : String) : MagError
deriving DecidableEq

/-- Property `_only_charge`: the spin-component axis has cardinality 1. -/
def only_charge (r : RawData) : Bool := dimAt r.spin_moments.shape 1 == 1

/-- Property `_spin_polarized`: the spin-component axis has cardinality 2. -/
def spin_polarized (r : RawData) : Bool := dimAt r.spin_moments.shape 1 == 2

/-- Property `_noncollinear`: the spin-component axis has cardinality 4. -/
def noncollinear (r : RawData) : Bool := dimAt r.spin_moments.shape 1 == 4

/-- Property `_has_orbital_moments`: `not orbital_moments.is_none()`. -/
def has_orbital_moments (r : RawData) : Bool := r.orbital_moments.isSome

/-- Modelled from the spec: Python repr of the step selector, used inside the
out-of-bounds error message. -/
def steps_to_string : Steps → String
  | .single i => toString i
  | .slice s e =>
    let f : Option Int → String := fun v => match v with
      | none => "None"
      | some k => toString k
    "slice(" ++ f s ++ ", " ++ f e ++ ", None)"

/-- The message of `_raise_error_if_steps_out_of_bounds`; it embeds the
offending step selector. -/
def steps_error_message (st : Steps) : String :=
  "Error reading the magnetic moments. Please check if the steps `" ++
    steps_to_string st ++ "` are properly formatted and within the boundaries."

/-- The message of `_raise_error_if_selection_not_available` for an unknown
selection tag; it embeds the offending selection. -/
def selection_error_message (sel : String) : String :=
  "The selection " ++ sel ++
    " is incorrect. Please check if it is spelled correctly. Possible choices are total, spin, or orbital."

/-- The message of the NoData failure for a missing orbital-moment array. -/
def no_orbital_moments_message : String :=
  "There are no orbital moments in the VASP output. Please make sure that you run the calculation with LORBMOM = T and LSORBIT = T."

/-- Source `_raise_error_if_steps_out_of_bounds`: probe the step selector against the
leading axis of `spin_moments` and turn an indexing failure into
IncorrectUsage. -/
def raise_error_if_steps_out_of_bounds (r : RawData) (st : Steps) : Except MagError Unit :=
  if steps_within_bounds (dimAt r.spin_moments.shape 0) st then .ok ()
  else .error (.incorrectUsage (steps_error_message st))

/-- Source `_raise_error_if_selection_not_available`: tag must be one of
spin/orbital/total (IncorrectUsage otherwise), and `orbital` additionally
requires the orbital-moment data to be present (NoData otherwise). -/
def raise_error_if_selection_not_available (r : RawData) (sel : String) : Except MagError Unit :=
  if !(sel == "spin" || sel == "orbital" || sel == "total") then
    .error (.incorrectUsage (selection_error_message sel))
  else if sel != "orbital" || has_orbital_moments r then .ok ()
  else .error (.noData no_orbital_moments_message)

/-- Source `_collinear_moments`: the component-1 slice of `spin_moments`. -/
def collinear_moments (r : RawData) (st : Steps) : NDArray :=
  step_comp r.spin_moments st 1

/-- Source `_noncollinear_moments`: combine the component-1..3 slices of
`spin_moments` and `orbital_moments` (zeros when absent) according to the
selection, then move the direction axis to the last position with the
rank-sensitive rule (axis 1 for 4-dimensional arrays, axis 0 otherwise). -/
def noncollinear_moments (r : RawData) (st : Steps) (sel : String) : NDArray :=
  let spin_part := step_comp_tail r.spin_moments st
  let orbital_part :=
    match r.orbital_moments with
    | some ob => step_comp_tail ob st
    | none => zeros_like spin_part
  let moments_sel :=
    if sel == "orbital" then orbital_part
    else if sel == "spin" then spin_part
    else NDArray.add spin_part orbital_part
  let direction_axis := if moments_sel.shape.length == 4 then 1 else 0
  moveaxis_to_last moments_sel direction_axis

/-- Source `charges`: the component-0 slice of `spin_moments` for the selected
steps, after the bounds check. -/
def charges (r : RawData) (st : Steps) : Except MagError NDArray :=
  match raise_error_if_steps_out_of_bounds r st with
  | .error e => .error e
  | .ok _ => .ok (step_comp r.spin_moments st 0)

/-- Source `moments`: validate steps and selection, then dispatch on the regime
(charge-only returns the absent value). -/
def moments (r : RawData) (st : Steps) (sel : String) : Except MagError (Option NDArray) :=
  match raise_error_if_steps_out_of_bounds r st with
  | .error e => .error e
  | .ok _ =>
    match raise_error_if_selection_not_available r sel with
    | .error e => .error e
    | .ok _ =>
      if only_charge r then .ok none
      else if spin_polarized r then .ok (some (collinear_moments r st))
      else .ok (some (noncollinear_moments r st sel))

/-- Source `_sum_over_orbitals`: absent maps to absent; otherwise sum over the last
axis, or the second-to-last axis for vector-valued (noncollinear) data. -/
def sum_over_orbitals (q : Option NDArray) (vector_valued : Bool) : Option NDArray :=
  match q with
  | none => none
  | some a =>
    if vector_valued then some (sum_axis a (a.shape.length - 2))
    else some (sum_axis a (a.shape.length - 1))

/-- Source `total_charges`: `_sum_over_orbitals(self.charges())`.  The absent branch
of `_sum_over_orbitals` is dead code here because `charges` always returns an
array. -/
def total_charges (r : RawData) (st : Steps) : Except MagError NDArray :=
  match charges r st with
  | .error e => .error e
  | .ok c =>
    match sum_over_orbitals (some c) false with
    | some t => .ok t
    | none => .ok c

/-- Source `total_moments`: `_sum_over_orbitals(self.moments(selection),
is_vector=self._noncollinear)`. -/
def total_moments (r : RawData) (st : Steps) (sel : String) : Except MagError (Option NDArray) :=
  match moments r st sel with
  | .error e => .error e
  | .ok m => .ok (sum_over_orbitals m (noncollinear r))

/-- Source `_add_spin_and_orbital_moments`: when orbital data is present, the raw
spin and orbital moment arrays without the charge component, direction axis
relocated to the last position; otherwise the empty contribution. -/
def add_spin_and_orbital_moments (r : RawData) (st : Steps) : Option NDArray × Option NDArray :=
  match r.orbital_moments with
  | none => (none, none)
  | some ob =>
    let sp := step_comp_tail r.spin_moments st
    let orb := step_comp_tail ob st
    let direction_axis := if sp.shape.length == 4 then 1 else 0
    (some (moveaxis_to_last sp direction_axis), some (moveaxis_to_last orb direction_axis))

/-- The dictionary assembled by `to_dict`. -/
structure MagnetismDict where
  charges : NDArray
  moments : Option NDArray
  spin_moments : Option NDArray
  orbital_moments : Option NDArray

/-- Source `to_dict`: charges, moments with the default (total) selection, and the
optional spin/orbital entries. -/
def to_dict (r : RawData) (st : Steps) : Except MagError MagnetismDict :=
  match charges r st with
  | .error e => .error e
  | .ok c =>
    match moments r st "total" with
    | .error e => .error e
    | .ok m =>
      .ok { charges := c, moments := m,
            spin_moments := (add_spin_and_orbital_moments r st).1,
            orbital_moments := (add_spin_and_orbital_moments r st).2 }

/-- Source `_make_sure_moments_have_timestep_dimension`: for a single-step access
pattern, insert a synthetic leading step axis of length 1
(`moments[np.newaxis]`). -/
def make_sure_moments_have_timestep_dimension (slice_access : Bool) (m : Option NDArray) :
    Option NDArray :=
  match m with
  | none => none
  | some a =>
    if slice_access then some a
    else some { shape := 1 :: a.shape, data := fun ix => a.data ix.tail }

/-- Source `_convert_moment_to_3d_vector`: promote a 2-dimensional (scalar-valued)
moment array to 3-vectors by a trailing size-1 reshape plus zero padding of
two leading components, so the scalar lands in the z component. -/
def convert_moment_to_3d_vector (m : Option NDArray) : Option NDArray :=
  match m with
  | none => none
  | some a =>
    if a.shape.length == 2 then
      some { shape := a.shape ++ [3],
             data := fun ix =>
               match ix with
               | [i, j, k] => if k == 2 then a.data [i, j] else 0
               | _ => 0 }
    else some a

/-- The composition of the two display-normalization steps applied inside
`_prepare_magnetic_moments_for_plotting` before the norm computation. -/
def promoted_moments (st : Steps) (m : Option NDArray) : Option NDArray :=
  convert_moment_to_3d_vector (make_sure_moments_have_timestep_dimension (Steps.isSlice st) m)

/-- A real-valued array: the result type of the display rescaling, whose
scale factor involves a Euclidean norm. -/
structure RArray where
  shape : List Nat
  data : List Nat → ℝ

/-- Scalar rescaling of an array into a real-valued array
(`rescale_moments * moments`). -/
noncomputable def smul_r (c : ℝ) (a : NDArray) : RArray where
  shape := a.shape
  data := fun ix => c * (a.data ix : ℝ)

/-- Euclidean norm along axis 2 of a (rank-3) moment array at step `i`,
atom `j` (`np.linalg.norm(moments, axis=2)`). -/
noncomputable def norm_row (a : NDArray) (i j : Nat) : ℝ :=
  Real.sqrt (∑ k ∈ Finset.range (dimAt a.shape 2), ((a.data [i, j, k] : ℝ)) ^ 2)

/-- Source `_max_length_moments`: 0.0 for absent data, otherwise the maximum of the
per-step, per-atom Euclidean norms.  The maximum over an empty index range is
left unspecified (numpy would fail there); all statements below assume a
nonempty range. -/
noncomputable def max_length_moments (m : Option NDArray) : ℝ :=
  match m with
  | none => 0
  | some a =>
    if h : (Finset.range (dimAt a.shape 0) ×ˢ Finset.range (dimAt a.shape 1)).Nonempty then
      (Finset.range (dimAt a.shape 0) ×ˢ Finset.range (dimAt a.shape 1)).sup' h
        (fun p => norm_row a p.1 p.2)
    else 0

/-- Euclidean norm along axis 2 of a real-valued rank-3 array. -/
noncomputable def norm_row_r (a : RArray) (i j : Nat) : ℝ :=
  Real.sqrt (∑ k ∈ Finset.range (dimAt a.shape 2), (a.data [i, j, k]) ^ 2)

/-- Maximum Euclidean norm of a real-valued rank-3 array (same convention as
`max_length_moments`). -/
noncomputable def max_length_r (a : RArray) : ℝ :=
  if h : (Finset.range (dimAt a.shape 0) ×ˢ Finset.range (dimAt a.shape 1)).Nonempty then
    (Finset.range (dimAt a.shape 0) ×ˢ Finset.range (dimAt a.shape 1)).sup' h
      (fun p => norm_row_r a p.1 p.2)
  else 0

/-- The fixed display length `Magnetism.length_moments = 1.5`. -/
noncomputable def length_moments : ℝ := 3 / 2

/-- Source `_prepare_magnetic_moments_for_plotting`: normalize the total moments of
the selection to a step-resolved array of 3-vectors; if the maximum norm
exceeds 1e-15, rescale uniformly so the maximum has length 1.5, otherwise
return the absent value. -/
noncomputable def prepare_magnetic_moments_for_plotting (r : RawData) (st : Steps)
    (sel : String) : Except MagError (Option RArray) :=
  match total_moments r st sel with
  | .error e => .error e
  | .ok tm =>
    let m3 := promoted_moments st tm
    let ml := max_length_moments m3
    if 1 / 10 ^ 15 < ml then .ok (Option.map (smul_r (length_moments / ml)) m3)
    else .ok none

/-- Rounding to the nearest integer with ties away from zero.  Python's
`f"{x:.2f}"` rounds the binary floating-point value half-to-even; on the
decimal inputs considered in the specification the two agree (the float
nearest to such a decimal is never an exact tie). -/
def round_half_away (x : ℚ) : Int :=
  if 0 ≤ x then ⌊x + 1 / 2⌋ else -⌊1 / 2 - x⌋

/-- Rendering of one moment with two decimal places (`f"{moment:.2f}"`). -/
def format_moment (q : ℚ) : String :=
  (if round_half_away (q * 100) < 0 then "-" else "")
    ++ toString ((round_half_away (q * 100)).natAbs / 100) ++ "."
    ++ (if (round_half_away (q * 100)).natAbs % 100 < 10 then "0" else "")
    ++ toString ((round_half_away (q * 100)).natAbs % 100)

/-- Source `__str__`: render `total_moments("total")`.  Absent data renders as
"not spin polarized"; a 1-dimensional result as a single space-joined line
of 2-decimal values behind "MAGMOM = "; otherwise one joined line per entry
of the leading axis, separated by a line continuation and the fixed
indentation.  (The source applies the scalar format to each entry of each
leading-axis row, which is only meaningful for results of rank at most 2;
the model reads the first two axes accordingly.) -/
def str_of_magnetism (r : RawData) (st : Steps) : Except MagError String :=
  match total_moments r st "total" with
  | .error e => .error e
  | .ok none => .ok "not spin polarized"
  | .ok (some a) =>
    if a.shape.length == 1 then
      .ok ("MAGMOM = " ++ String.intercalate " "
        ((List.range (dimAt a.shape 0)).map (fun j => format_moment (a.data [j]))))
    else
      .ok ("MAGMOM = " ++ String.intercalate " \\\n         "
        ((List.range (dimAt a.shape 0)).map (fun t => String.intercalate " "
          ((List.range (dimAt a.shape 1)).map (fun j => format_moment (a.data [t, j]))))))

/-- Observation: is the outcome an IncorrectUsage failure? -/
def is_incorrect_usage {α : Type} : Except MagError α → Bool
  | .error (.incorrectUsage _) => true
  | _ => false

/-- Observation: is the outcome a NoData failure? -/
def is_no_data {α : Type} : Except MagError α → Bool
  | .error (.noData _) => true
  | _ => false

/-- Observation: is the outcome a success? -/
def is_success {α : Type} : Except MagError α → Bool
  | .ok _ => true
  | .error _ => false

/-- A step selector the probe indexing rejects: a single index outside
`[-n, n)`.  Slices are clipped by the array abstraction and never rejected. -/
def bad_step (n : Nat) (st : Steps) : Bool := !steps_within_bounds n st

/-- A selection tag outside the fixed enumeration total/spin/orbital. -/
def bad_selection (sel : String) : Bool :=
  !(sel == "spin" || sel == "orbital" || sel == "total")

/-- The orbital contribution to one noncollinear moment entry, read off the
raw data: the matching entry of `orbital_moments` when present, zero
otherwise. -/
def orbital_entry (r : RawData) (t d j o : Nat) : ℚ :=
  match r.orbital_moments with
  | some ob => ob.data [t, d + 1, j, o]
  | none => 0

/-- Charge-only example data: shape `[1, 1, 1, 1]`, no orbital moments. -/
def r_charge : RawData where
  spin_moments := { shape := [1, 1, 1, 1], data := fun _ => 7 }
  orbital_moments := none

/-- Charge-only example with two atoms and two orbitals and charges
`[[1, 2], [3, 4]]` in the single step. -/
def r_charge22 : RawData where
  spin_moments :=
    { shape := [1, 1, 2, 2],
      data := fun ix => match ix.getD 2 0, ix.getD 3 0 with
        | 0, 0 => 1
        | 0, 1 => 2
        | 1, 0 => 3
        | _, _ => 4 }
  orbital_moments := none

/-- Collinear example data: one step, three atoms, one orbital, total
moments `[1.234, -0.005, 0.5]`, no orbital moments. -/
def r_collinear : RawData where
  spin_moments :=
    { shape := [1, 2, 3, 1],
      data := fun ix => match ix.getD 1 0, ix.getD 2 0 with
        | 1, 0 => 1234 / 1000
        | 1, 1 => -5 / 1000
        | 1, 2 => 1 / 2
        | _, _ => 0 }
  orbital_moments := none

/-- Noncollinear example data without orbital moments: one step, one atom,
one orbital, spin moment vector `(3, 4, 0)`. -/
def r_nc : RawData where
  spin_moments :=
    { shape := [1, 4, 1, 1],
      data := fun ix => match ix.getD 1 0 with
        | 1 => 3
        | 2 => 4
        | _ => 0 }
  orbital_moments := none

/-- Orbital-moment array of the noncollinear example with orbital data:
orbital vector `(1, 2, 5)` in its single step/atom/orbital. -/
def ob_nco : NDArray where
  shape := [1, 4, 1, 1]
  data := fun ix => match ix.getD 1 0 with
    | 1 => 1
    | 2 => 2
    | 3 => 5
    | _ => 0

/-- Noncollinear example data with orbital moments present: one step, one
atom, one orbital, spin vector `(3, 4, 0)` and orbital vector `(1, 2, 5)`. -/
def r_nco : RawData where
  spin_moments :=
    { shape := [1, 4, 1, 1],
      data := fun ix => match ix.getD 1 0 with
        | 1 => 3
        | 2 => 4
        | _ => 0 }
  orbital_moments := some ob_nco

/-- The total-moment payload produced for `r_nc` at step 0 (summed over the
single orbital). -/
def tm_nc : NDArray := sum_axis (noncollinear_moments r_nc (Steps.single 0) "total") 1

/-- The display-promoted (rank-3) moment array for `r_nc` at step 0. -/
def m3_nc : NDArray := { shape := 1 :: tm_nc.shape, data := fun ix => tm_nc.data ix.tail }

lemma add_zeros_like (a : NDArray) : NDArray.add a (zeros_like a) = a := by
  cases a with
  | mk sh d => simp [NDArray.add, zeros_like]

lemma step_comp_tail_shape_congr {a b : NDArray} (h : a.shape = b.shape) (st : Steps) :
    (step_comp_tail a st).shape = (step_comp_tail b st).shape := by
  cases st with
  | single i =>
    simp only [step_comp_tail, h]
    cases resolve_index (dimAt b.shape 0) i <;> rfl
  | slice s e => simp [step_comp_tail, h]

lemma sel_ok_total (r : RawData) :
    raise_error_if_selection_not_available r "total" = .ok () := rfl

lemma sel_ok_spin (r : RawData) :
    raise_error_if_selection_not_available r "spin" = .ok () := rfl

lemma sel_ok_orbital (r : RawData) (ob : NDArray) (h : r.orbital_moments = some ob) :
    raise_error_if_selection_not_available r "orbital" = .ok () := by
  simp [raise_error_if_selection_not_available, has_orbital_moments, h]

lemma sel_orbital_absent (r : RawData) (h : r.orbital_moments = none) :
    raise_error_if_selection_not_available r "orbital"
      = .error (.noData no_orbital_moments_message) := by
  simp [raise_error_if_selection_not_available, has_orbital_moments, h]

lemma moments_only_charge (r : RawData) (st : Steps) (sel : String)
    (h1 : only_charge r = true)
    (hst : steps_within_bounds (dimAt r.spin_moments.shape 0) st = true)
    (hsel : raise_error_if_selection_not_available r sel = .ok ()) :
    moments r st sel = .ok none := by
  unfold moments raise_error_if_steps_out_of_bounds
  rw [hst, hsel]
  simp [h1]

lemma moments_collinear (r : RawData) (st : Steps) (sel : String)
    (h2 : spin_polarized r = true)
    (hst : steps_within_bounds (dimAt r.spin_moments.shape 0) st = true)
    (hsel : raise_error_if_selection_not_available r sel = .ok ()) :
    moments r st sel = .ok (some (collinear_moments r st)) := by
  have h2' : dimAt r.spin_moments.shape 1 = 2 := by simpa [spin_polarized] using h2
  unfold moments raise_error_if_steps_out_of_bounds
  rw [hst, hsel]
  simp [only_charge, spin_polarized, h2']

lemma moments_noncollinear (r : RawData) (st : Steps) (sel : String)
    (h4 : noncollinear r = true)
    (hst : steps_within_bounds (dimAt r.spin_moments.shape 0) st = true)
    (hsel : raise_error_if_selection_not_available r sel = .ok ()) :
    moments r st sel = .ok (some (noncollinear_moments r st sel)) := by
  have h4' : dimAt r.spin_moments.shape 1 = 4 := by simpa [noncollinear] using h4
  unfold moments raise_error_if_steps_out_of_bounds
  rw [hst, hsel]
  simp [only_charge, spin_polarized, h4']

lemma noncollinear_moments_eval (r : RawData) (ob : NDArray) (st : Steps)
    (horb : r.orbital_moments = some ob) (hsh : ob.shape = r.spin_moments.shape) :
    noncollinear_moments r st "total"
      = moveaxis_to_last
          ((step_comp_tail r.spin_moments st).add (step_comp_tail ob st))
          (if (step_comp_tail r.spin_moments st).shape.length == 4 then 1 else 0)
    ∧ noncollinear_moments r st "spin"
      = moveaxis_to_last (step_comp_tail r.spin_moments st)
          (if (step_comp_tail r.spin_moments st).shape.length == 4 then 1 else 0)
    ∧ noncollinear_moments r st "orbital"
      = moveaxis_to_last (step_comp_tail ob st)
          (if (step_comp_tail r.spin_moments st).shape.length == 4 then 1 else 0) := by
  have hBA := @step_comp_tail_shape_congr ob r.spin_moments hsh st
  have haddsh : ((step_comp_tail r.spin_moments st).add (step_comp_tail ob st)).shape
      = (step_comp_tail r.spin_moments st).shape := rfl
  refine ⟨?_, ?_, ?_⟩ <;> simp [noncollinear_moments, horb, haddsh, hBA]

/-- C1: for noncollinear data with orbital-moment data present, for every
in-bounds step selection, `moments("total")` is the elementwise sum
`moments("spin") + moments("orbital")` (spin contribution: components 1..3
of `spin_moments`; orbital contribution: the matching slice of
`orbital_moments`). -/
theorem magnetism_C1 (r : RawData) (ob : NDArray) (st : Steps)
    (h4 : noncollinear r = true) (horb : r.orbital_moments = some ob)
    (hsh : ob.shape = r.spin_moments.shape)
    (hst : steps_within_bounds (dimAt r.spin_moments.shape 0) st = true) :
    ∃ mt ms mo, moments r st "total" = .ok (some mt)
      ∧ moments r st "spin" = .ok (some ms)
      ∧ moments r st "orbital" = .ok (some mo)
      ∧ mt.shape = ms.shape ∧ ms.shape = mo.shape
      ∧ ∀ ix, mt.data ix = ms.data ix + mo.data ix := by
  obtain ⟨et, es, eo⟩ := noncollinear_moments_eval r ob st horb hsh
  have hBA := @step_comp_tail_shape_congr ob r.spin_moments hsh st
  refine ⟨noncollinear_moments r st "total", noncollinear_moments r st "spin",
    noncollinear_moments r st "orbital",
    moments_noncollinear r st "total" h4 hst (sel_ok_total r),
    moments_noncollinear r st "spin" h4 hst (sel_ok_spin r),
    moments_noncollinear r st "orbital" h4 hst (sel_ok_orbital r ob horb), ?_, ?_, ?_⟩
  · rw [et, es]; rfl
  · rw [es, eo]; simp [moveaxis_to_last, hBA]
  · intro ix; rw [et, es, eo]; rfl

/-- C1 witness: concrete noncollinear data with orbital moments. -/
theorem magnetism_C1_witness :
    ∃ mt ms mo,
      moments r_nco (Steps.single 0) "total" = .ok (some mt)
      ∧ moments r_nco (Steps.single 0) "spin" = .ok (some ms)
      ∧ moments r_nco (Steps.single 0) "orbital" = .ok (some mo)
      ∧ mt.shape = ms.shape ∧ ms.shape = mo.shape
      ∧ ∀ ix, mt.data ix = ms.data ix + mo.data ix :=
  magnetism_C1 r_nco ob_nco (Steps.single 0) rfl rfl rfl rfl

/-- C5 (amended): for charge-only data and every in-bounds step selection,
`moments` returns the absent value for selections total and spin, and for
orbital exactly when orbital-moment data is present; when orbital data is
absent, `moments("orbital")` raises NoData instead. -/
theorem magnetism_C5 (r : RawData) (st : Steps)
    (h1 : only_charge r = true)
    (hst : steps_within_bounds (dimAt r.spin_moments.shape 0) st = true) :
    moments r st "total" = .ok none ∧ moments r st "spin" = .ok none
    ∧ (∀ ob, r.orbital_moments = some ob → moments r st "orbital" = .ok none)
    ∧ (r.orbital_moments = none →
        moments r st "orbital" = .error (.noData no_orbital_moments_message)) := by
  refine ⟨moments_only_charge r st "total" h1 hst (sel_ok_total r),
    moments_only_charge r st "spin" h1 hst (sel_ok_spin r),
    fun ob hob => moments_only_charge r st "orbital" h1 hst (sel_ok_orbital r ob hob), ?_⟩
  intro hnone
  unfold moments raise_error_if_steps_out_of_bounds
  rw [hst, sel_orbital_absent r hnone]
  simp

/-- C5 counterexample: charge-only data without orbital moments, in-bounds
single step: the selection "orbital" does not yield the absent value but a
NoData failure, because the selection check precedes the regime dispatch. -/
theorem magnetism_C5_counterexample :
    moments r_charge (Steps.single 0) "orbital" ≠ Except.ok none
    ∧ moments r_charge (Steps.single 0) "orbital"
        = .error (.noData no_orbital_moments_message) := by
  constructor
  · intro h
    rw [show moments r_charge (Steps.single 0) "orbital"
        = Except.error (MagError.noData no_orbital_moments_message) from rfl] at h
    exact Except.noConfusion h
  · rfl

/-- C5 witness: the amended claim at concrete charge-only data. -/
theorem magnetism_C5_witness :
    moments r_charge (Steps.single 0) "total" = .ok none
    ∧ moments r_charge (Steps.single 0) "spin" = .ok none :=
  ⟨(magnetism_C5 r_charge (Steps.single 0) rfl rfl).1,
   (magnetism_C5 r_charge (Steps.single 0) rfl rfl).2.1⟩

/-- C6 (amended): for collinear data and every in-bounds step selection,
`moments("spin")` and `moments("total")` return the same array, the
component-1 slice of `spin_moments` for the selected steps; `moments("orbital")`
returns that same array when orbital-moment data is present and raises
NoData when it is absent. -/
theorem magnetism_C6 (r : RawData) (st : Steps)
    (h2 : spin_polarized r = true)
    (hst : steps_within_bounds (dimAt r.spin_moments.shape 0) st = true) :
    moments r st "spin" = .ok (some (step_comp r.spin_moments st 1))
    ∧ moments r st "total" = moments r st "spin"
    ∧ (∀ ob, r.orbital_moments = some ob → moments r st "orbital" = moments r st "spin")
    ∧ (r.orbital_moments = none →
        moments r st "orbital" = .error (.noData no_orbital_moments_message)) := by
  refine ⟨moments_collinear r st "spin" h2 hst (sel_ok_spin r), ?_, ?_, ?_⟩
  · rw [moments_collinear r st "total" h2 hst (sel_ok_total r),
      moments_collinear r st "spin" h2 hst (sel_ok_spin r)]
  · intro ob hob
    rw [moments_collinear r st "orbital" h2 hst (sel_ok_orbital r ob hob),
      moments_collinear r st "spin" h2 hst (sel_ok_spin r)]
  · intro hnone
    unfold moments raise_error_if_steps_out_of_bounds
    rw [hst, sel_orbital_absent r hnone]
    simp

/-- C6 counterexample: collinear data without orbital moments, in-bounds
single step: `moments("orbital")` raises NoData and thus differs from
`moments("total")`, so the three selections are not all equal. -/
theorem magnetism_C6_counterexample :
    moments r_collinear (Steps.single 0) "orbital"
      ≠ moments r_collinear (Steps.single 0) "total"
    ∧ moments r_collinear (Steps.single 0) "orbital"
        = .error (.noData no_orbital_moments_message) := by
  constructor
  · intro h
    have h2 := congrArg is_no_data h
    rw [show is_no_data (moments r_collinear (Steps.single 0) "orbital") = true from rfl,
      show is_no_data (moments r_collinear (Steps.single 0) "total") = false from rfl] at h2
    exact Bool.noConfusion h2
  · rfl

/-- C6 witness: the amended claim at concrete collinear data. -/
theorem magnetism_C6_witness :
    moments r_collinear (Steps.single 0) "spin"
      = .ok (some (step_comp r_collinear.spin_moments (Steps.single 0) 1))
    ∧ moments r_collinear (Steps.single 0) "total"
      = moments r_collinear (Steps.single 0) "spin" :=
  ⟨(magnetism_C6 r_collinear (Steps.single 0) rfl rfl).1,
   (magnetism_C6 r_collinear (Steps.single 0) rfl rfl).2.1⟩

/-- C7: for noncollinear data with orbital-moment data absent and every
in-bounds step selection, `moments("total")` equals `moments("spin")` (the
missing orbital contribution acts as zeros of the same shape) and
`moments("orbital")` raises NoData with the guidance message. -/
theorem magnetism_C7 (r : RawData) (st : Steps)
    (h4 : noncollinear r = true) (horb : r.orbital_moments = none)
    (hst : steps_within_bounds (dimAt r.spin_moments.shape 0) st = true) :
    moments r st "total" = moments r st "spin"
    ∧ moments r st "orbital" = .error (.noData no_orbital_moments_message) := by
  constructor
  · rw [moments_noncollinear r st "total" h4 hst (sel_ok_total r),
      moments_noncollinear r st "spin" h4 hst (sel_ok_spin r)]
    have he : noncollinear_moments r st "total" = noncollinear_moments r st "spin" := by
      simp [noncollinear_moments, horb, add_zeros_like]
    rw [he]
  · unfold moments raise_error_if_steps_out_of_bounds
    rw [hst, sel_orbital_absent r horb]
    simp

/-- C7 witness: the claim at concrete noncollinear data without orbital
moments. -/
theorem magnetism_C7_witness :
    moments r_nc (Steps.single 0) "total" = moments r_nc (Steps.single 0) "spin"
    ∧ moments r_nc (Steps.single 0) "orbital"
        = .error (.noData no_orbital_moments_message) :=
  magnetism_C7 r_nc (Steps.single 0) rfl rfl rfl

lemma charges_bounds_fail (r : RawData) (st : Steps)
    (hb : steps_within_bounds (dimAt r.spin_moments.shape 0) st = false) :
    charges r st = .error (.incorrectUsage (steps_error_message st)) := by
  unfold charges raise_error_if_steps_out_of_bounds
  rw [hb]
  simp

lemma moments_bounds_fail (r : RawData) (st : Steps) (sel : String)
    (hb : steps_within_bounds (dimAt r.spin_moments.shape 0) st = false) :
    moments r st sel = .error (.incorrectUsage (steps_error_message st)) := by
  unfold moments raise_error_if_steps_out_of_bounds
  rw [hb]
  simp

lemma charges_bounds_ok (r : RawData) (st : Steps)
    (hb : steps_within_bounds (dimAt r.spin_moments.shape 0) st = true) :
    charges r st = .ok (step_comp r.spin_moments st 0) := by
  unfold charges raise_error_if_steps_out_of_bounds
  rw [hb]
  simp

lemma selection_invalid (r : RawData) (sel : String) (hbsel : bad_selection sel = true) :
    raise_error_if_selection_not_available r sel
      = .error (.incorrectUsage (selection_error_message sel)) := by
  unfold bad_selection at hbsel
  unfold raise_error_if_selection_not_available
  rw [hbsel]
  simp

lemma selection_valid_outcomes (r : RawData) (sel : String)
    (hbsel : bad_selection sel = false) :
    raise_error_if_selection_not_available r sel = .ok ()
    ∨ raise_error_if_selection_not_available r sel
        = .error (.noData no_orbital_moments_message) := by
  unfold bad_selection at hbsel
  unfold raise_error_if_selection_not_available
  rw [hbsel]
  cases sel != "orbital" || has_orbital_moments r <;> simp

/-- C4 (amended): charges, total_charges, moments and total_moments raise
IncorrectUsage exactly when the step selector is a single index outside the
index range `[-n, n)` of the leading step axis, or (for moments and
total_moments) when the selection tag is outside total/spin/orbital; slice
selectors are clipped by the array abstraction and never raise.  The error
value carries the message embedding the offending selector or tag, and a
call with an in-bounds selector and a valid tag never raises IncorrectUsage. -/
theorem magnetism_C4 (r : RawData) (st : Steps) (sel : String) :
    is_incorrect_usage (charges r st) = bad_step (dimAt r.spin_moments.shape 0) st
    ∧ is_incorrect_usage (total_charges r st) = bad_step (dimAt r.spin_moments.shape 0) st
    ∧ is_incorrect_usage (moments r st sel)
        = (bad_step (dimAt r.spin_moments.shape 0) st || bad_selection sel)
    ∧ is_incorrect_usage (total_moments r st sel)
        = (bad_step (dimAt r.spin_moments.shape 0) st || bad_selection sel)
    ∧ (bad_step (dimAt r.spin_moments.shape 0) st = true →
        charges r st = .error (.incorrectUsage (steps_error_message st)))
    ∧ (bad_step (dimAt r.spin_moments.shape 0) st = false → bad_selection sel = true →
        moments r st sel = .error (.incorrectUsage (selection_error_message sel))) := by
  cases hb : steps_within_bounds (dimAt r.spin_moments.shape 0) st with
  | false =>
    have hch := charges_bounds_fail r st hb
    have hmo := moments_bounds_fail r st sel hb
    have htc : total_charges r st = .error (.incorrectUsage (steps_error_message st)) := by
      unfold total_charges
      rw [hch]
    have htm : total_moments r st sel
        = .error (.incorrectUsage (steps_error_message st)) := by
      unfold total_moments
      rw [hmo]
    refine ⟨?_, ?_, ?_, ?_, fun _ => hch, ?_⟩ <;>
      simp [hch, htc, hmo, htm, bad_step, hb, is_incorrect_usage]
  | true =>
    have hch := charges_bounds_ok r st hb
    have htc : total_charges r st
        = .ok (sum_axis (step_comp r.spin_moments st 0)
            ((step_comp r.spin_moments st 0).shape.length - 1)) := by
      unfold total_charges
      rw [hch]
      simp [sum_over_orbitals]
    cases hbsel : bad_selection sel with
    | true =>
      have hselv := selection_invalid r sel hbsel
      have hmo : moments r st sel
          = .error (.incorrectUsage (selection_error_message sel)) := by
        unfold moments raise_error_if_steps_out_of_bounds
        rw [hb, hselv]
        simp
      have htm : total_moments r st sel
          = .error (.incorrectUsage (selection_error_message sel)) := by
        unfold total_moments
        rw [hmo]
      refine ⟨?_, ?_, ?_, ?_, ?_, fun _ _ => hmo⟩ <;>
        simp [hch, htc, hmo, htm, bad_step, hb, hbsel, is_incorrect_usage]
    | false =>
      have hmo : is_incorrect_usage (moments r st sel) = false := by
        rcases selection_valid_outcomes r sel hbsel with h | h <;>
          [skip; skip] <;>
          · unfold moments raise_error_if_steps_out_of_bounds
            rw [hb, h]
            cases only_charge r <;> cases spin_polarized r <;>
              simp [is_incorrect_usage]
      have htm : is_incorrect_usage (total_moments r st sel) = false := by
        unfold total_moments
        cases hm : moments r st sel with
        | error e =>
          rw [hm] at hmo
          simpa [is_incorrect_usage] using hmo
        | ok m => simp [is_incorrect_usage]
      refine ⟨?_, ?_, ?_, ?_, ?_, ?_⟩
      · rw [hch]; simp [is_incorrect_usage, bad_step, hb]
      · rw [htc]; simp [is_incorrect_usage, bad_step, hb]
      · rw [hmo]; simp [bad_step, hb, hbsel]
      · rw [htm]; simp [bad_step, hb, hbsel]
      · intro h
        rw [bad_step, hb] at h
        exact Bool.noConfusion h
      · exact fun _ h2 => Bool.noConfusion h2

/-- C4 counterexample: on data with a single step, the slice `5:10` lies
outside the bounds of the leading step axis (length 1), yet `charges`
succeeds with no IncorrectUsage, because the array abstraction clips
slices. -/
theorem magnetism_C4_counterexample :
    dimAt r_charge.spin_moments.shape 0 = 1
    ∧ is_success (charges r_charge (Steps.slice (some 5) (some 10))) = true
    ∧ is_incorrect_usage (charges r_charge (Steps.slice (some 5) (some 10))) = false :=
  ⟨rfl, rfl, rfl⟩

lemma insertAt_length_eq (l : List Nat) (j : Nat) : insertAt l.length j l = l ++ [j] := by
  induction l with
  | nil => rfl
  | cons a t ih => simp [insertAt, ih]

/-- C8 (amended): for every in-bounds step selection and every regime,
`total_charges()` equals `charges()` summed over the orbital axis, which is
the last axis of the charges array, collapsing per-orbital charge into one
value per atom. -/
theorem magnetism_C8 (r : RawData) (st : Steps) (n c A O : Nat)
    (hsh : r.spin_moments.shape = [n, c, A, O])
    (hst : steps_within_bounds (dimAt r.spin_moments.shape 0) st = true) :
    ∃ ch tc, charges r st = .ok ch ∧ total_charges r st = .ok tc
      ∧ tc.shape = ch.shape.dropLast
      ∧ ∀ ix, ix.length + 1 = ch.shape.length →
          tc.data ix = ∑ j ∈ Finset.range O, ch.data (ix ++ [j]) := by
  refine ⟨step_comp r.spin_moments st 0,
    sum_axis (step_comp r.spin_moments st 0)
      ((step_comp r.spin_moments st 0).shape.length - 1),
    charges_bounds_ok r st hst, ?_, ?_, ?_⟩
  · unfold total_charges
    rw [charges_bounds_ok r st hst]
    simp [sum_over_orbitals]
  · cases st with
    | single i =>
      have hn : dimAt r.spin_moments.shape 0 = n := by rw [hsh]; rfl
      rw [hn] at hst
      cases hro : resolve_index n i with
      | none => simp [steps_within_bounds, hro] at hst
      | some k => simp [step_comp, sum_axis, hsh, dimAt, hro, eraseAt]
    | slice s e => simp [step_comp, sum_axis, hsh, dimAt, eraseAt]
  · intro ix hlen
    cases st with
    | single i =>
      have hn : dimAt r.spin_moments.shape 0 = n := by rw [hsh]; rfl
      rw [hn] at hst
      cases hro : resolve_index n i with
      | none => simp [steps_within_bounds, hro] at hst
      | some k =>
        simp only [step_comp, hsh] at hlen ⊢
        rw [show dimAt [n, c, A, O] 0 = n from rfl, hro] at hlen ⊢
        simp only [List.tail_cons, List.length_cons, List.length_nil] at hlen
        have h1 : ix.length = 1 := by omega
        have haux : ∀ j, insertAt 1 j ix = ix ++ [j] := by
          intro j
          rw [← h1, insertAt_length_eq]
        simp [sum_axis, dimAt, haux]
    | slice s e =>
      simp only [step_comp, hsh] at hlen ⊢
      simp only [List.tail_cons, List.length_cons, List.length_nil] at hlen
      have h1 : ix.length = 2 := by omega
      have haux : ∀ j, insertAt 2 j ix = ix ++ [j] := by
        intro j
        rw [← h1, insertAt_length_eq]
      simp [sum_axis, dimAt, haux]

/-- C8 counterexample: charges `[[1, 2], [3, 4]]` (atoms by orbitals) in a
single step: the code sums the last axis (per-atom totals `[3, 7]`), while
summing the second-to-last axis would give `[4, 6]`; already the first atom
differs (3 versus 4). -/
theorem magnetism_C8_counterexample :
    total_charges r_charge22 (Steps.single 0)
      = .ok (sum_axis (step_comp r_charge22.spin_moments (Steps.single 0) 0) 1)
    ∧ (step_comp r_charge22.spin_moments (Steps.single 0) 0).shape = [2, 2]
    ∧ (sum_axis (step_comp r_charge22.spin_moments (Steps.single 0) 0) 1).data [0] = 3
    ∧ (sum_axis (step_comp r_charge22.spin_moments (Steps.single 0) 0) 0).data [0] = 4
    ∧ (3 : ℚ) ≠ 4 := by
  refine ⟨rfl, rfl, ?_, ?_, by norm_num⟩
  · show (∑ j ∈ Finset.range 2,
      r_charge22.spin_moments.data (0 :: 0 :: insertAt 1 j [0])) = 3
    simp [Finset.sum_range_succ, insertAt, r_charge22]
    norm_num
  · show (∑ j ∈ Finset.range 2,
      r_charge22.spin_moments.data (0 :: 0 :: insertAt 0 j [0])) = 4
    simp [Finset.sum_range_succ, insertAt, r_charge22]
    norm_num

/-- C8 witness: the amended claim at the concrete charge data. -/
theorem magnetism_C8_witness :
    ∃ ch tc, charges r_charge22 (Steps.single 0) = .ok ch
      ∧ total_charges r_charge22 (Steps.single 0) = .ok tc
      ∧ tc.shape = ch.shape.dropLast
      ∧ ∀ ix, ix.length + 1 = ch.shape.length →
          tc.data ix = ∑ j ∈ Finset.range 2, ch.data (ix ++ [j]) :=
  magnetism_C8 r_charge22 (Steps.single 0) 1 1 2 2 rfl rfl

/-- C10: for every in-bounds step selection and every selection tag that
passes validation, `total_moments(selection)` is absent if and only if
`moments(selection)` is, which happens exactly in the charge-only regime:
the orbital-axis summation maps absent to absent without raising. -/
theorem magnetism_C10 (r : RawData) (st : Steps) (sel : String)
    (hc : only_charge r = true ∨ spin_polarized r = true ∨ noncollinear r = true)
    (hst : steps_within_bounds (dimAt r.spin_moments.shape 0) st = true)
    (hsel : raise_error_if_selection_not_available r sel = .ok ()) :
    (total_moments r st sel = .ok none ↔ moments r st sel = .ok none)
    ∧ (moments r st sel = .ok none ↔ only_charge r = true) := by
  rcases hc with h | h | h
  · have hm := moments_only_charge r st sel h hst hsel
    have ht : total_moments r st sel = .ok none := by
      unfold total_moments
      rw [hm]
      simp [sum_over_orbitals]
    rw [hm, ht]
    simp [h]
  · have hm := moments_collinear r st sel h hst hsel
    have h2' : dimAt r.spin_moments.shape 1 = 2 := by simpa [spin_polarized] using h
    have ht : total_moments r st sel
        = .ok (sum_over_orbitals (some (collinear_moments r st)) (noncollinear r)) := by
      unfold total_moments
      rw [hm]
    rw [hm, ht]
    cases hv : noncollinear r <;>
      simp [sum_over_orbitals, only_charge, h2']
  · have hm := moments_noncollinear r st sel h hst hsel
    have h4' : dimAt r.spin_moments.shape 1 = 4 := by simpa [noncollinear] using h
    have ht : total_moments r st sel
        = .ok (sum_over_orbitals (some (noncollinear_moments r st sel)) (noncollinear r)) := by
      unfold total_moments
      rw [hm]
    rw [hm, ht]
    cases hv : noncollinear r <;>
      simp [sum_over_orbitals, only_charge, h4']

/-- C10 witness: the claim at concrete charge-only data. -/
theorem magnetism_C10_witness :
    (total_moments r_charge (Steps.single 0) "total" = .ok none
      ↔ moments r_charge (Steps.single 0) "total" = .ok none)
    ∧ (moments r_charge (Steps.single 0) "total" = .ok none
      ↔ only_charge r_charge = true) :=
  magnetism_C10 r_charge (Steps.single 0) "total" (Or.inl rfl) rfl rfl

lemma step_comp_tail_single (a : NDArray) (n c2 A O : Nat) (i : Int) (k : Nat)
    (hsh : a.shape = [n, c2, A, O]) (hres : resolve_index n i = some k) :
    step_comp_tail a (Steps.single i)
      = { shape := [c2 - 1, A, O],
          data := fun ix => a.data (k :: (ix.headD 0 + 1) :: ix.tail) } := by
  simp [step_comp_tail, hsh, dimAt, hres]

lemma step_comp_tail_slice (a : NDArray) (n c2 A O : Nat) (s e : Option Int)
    (hsh : a.shape = [n, c2, A, O]) :
    step_comp_tail a (Steps.slice s e)
      = { shape := [(resolve_slice n s e).2, c2 - 1, A, O],
          data := fun ix => a.data (((resolve_slice n s e).1 + ix.headD 0) ::
            (ix.tail.headD 0 + 1) :: ix.tail.tail) } := by
  simp [step_comp_tail, hsh, dimAt]

lemma noncollinear_moments_single (r : RawData) (n A O : Nat) (i : Int) (k : Nat)
    (sel : String)
    (hsh : r.spin_moments.shape = [n, 4, A, O])
    (hob : ∀ ob, r.orbital_moments = some ob → ob.shape = [n, 4, A, O])
    (hres : resolve_index n i = some k) :
    (noncollinear_moments r (Steps.single i) sel).shape = [A, O, 3]
    ∧ ∀ j o d, (noncollinear_moments r (Steps.single i) sel).data [j, o, d]
        = (if sel == "orbital" then orbital_entry r k d j o
           else if sel == "spin" then r.spin_moments.data [k, d + 1, j, o]
           else r.spin_moments.data [k, d + 1, j, o] + orbital_entry r k d j o) := by
  have hs := step_comp_tail_single r.spin_moments n 4 A O i k hsh hres
  cases horb : r.orbital_moments with
  | none =>
    unfold noncollinear_moments
    rw [horb, hs]
    constructor
    · by_cases h1 : (sel == "orbital") = true <;> by_cases h2 : (sel == "spin") = true <;>
        simp [h1, h2, moveaxis_to_last, zeros_like, NDArray.add, eraseAt, dimAt]
    · intro j o d
      by_cases h1 : (sel == "orbital") = true <;> by_cases h2 : (sel == "spin") = true <;>
        simp [h1, h2, moveaxis_to_last, zeros_like, NDArray.add, insertAt,
          orbital_entry, horb, dimAt]
  | some ob =>
    have hso := step_comp_tail_single ob n 4 A O i k (hob ob horb) hres
    unfold noncollinear_moments
    rw [horb]
    simp only [hs, hso]
    constructor
    · by_cases h1 : (sel == "orbital") = true <;> by_cases h2 : (sel == "spin") = true <;>
        simp [h1, h2, moveaxis_to_last, NDArray.add, eraseAt, dimAt]
    · intro j o d
      by_cases h1 : (sel == "orbital") = true <;> by_cases h2 : (sel == "spin") = true <;>
        simp [h1, h2, moveaxis_to_last, NDArray.add, insertAt,
          orbital_entry, horb, dimAt]

lemma noncollinear_moments_slice (r : RawData) (n A O : Nat) (s e : Option Int)
    (sel : String)
    (hsh : r.spin_moments.shape = [n, 4, A, O])
    (hob : ∀ ob, r.orbital_moments = some ob → ob.shape = [n, 4, A, O]) :
    (noncollinear_moments r (Steps.slice s e) sel).shape
        = [(resolve_slice n s e).2, A, O, 3]
    ∧ ∀ t j o d, (noncollinear_moments r (Steps.slice s e) sel).data [t, j, o, d]
        = (if sel == "orbital" then orbital_entry r ((resolve_slice n s e).1 + t) d j o
           else if sel == "spin" then
             r.spin_moments.data [(resolve_slice n s e).1 + t, d + 1, j, o]
           else r.spin_moments.data [(resolve_slice n s e).1 + t, d + 1, j, o]
             + orbital_entry r ((resolve_slice n s e).1 + t) d j o) := by
  have hs := step_comp_tail_slice r.spin_moments n 4 A O s e hsh
  cases horb : r.orbital_moments with
  | none =>
    unfold noncollinear_moments
    rw [horb, hs]
    constructor
    · by_cases h1 : (sel == "orbital") = true <;> by_cases h2 : (sel == "spin") = true <;>
        simp [h1, h2, moveaxis_to_last, zeros_like, NDArray.add, eraseAt, dimAt]
    · intro t j o d
      by_cases h1 : (sel == "orbital") = true <;> by_cases h2 : (sel == "spin") = true <;>
        simp [h1, h2, moveaxis_to_last, zeros_like, NDArray.add, insertAt,
          orbital_entry, horb, dimAt]
  | some ob =>
    have hso := step_comp_tail_slice ob n 4 A O s e (hob ob horb)
    unfold noncollinear_moments
    rw [horb]
    simp only [hs, hso]
    constructor
    · by_cases h1 : (sel == "orbital") = true <;> by_cases h2 : (sel == "spin") = true <;>
        simp [h1, h2, moveaxis_to_last, NDArray.add, eraseAt, dimAt]
    · intro t j o d
      by_cases h1 : (sel == "orbital") = true <;> by_cases h2 : (sel == "spin") = true <;>
        simp [h1, h2, moveaxis_to_last, NDArray.add, insertAt,
          orbital_entry, horb, dimAt]

lemma to_dict_noncollinear (r : RawData) (st : Steps)
    (h4 : noncollinear r = true)
    (hst : steps_within_bounds (dimAt r.spin_moments.shape 0) st = true) :
    to_dict r st = .ok
      { charges := step_comp r.spin_moments st 0,
        moments := some (noncollinear_moments r st "total"),
        spin_moments := (add_spin_and_orbital_moments r st).1,
        orbital_moments := (add_spin_and_orbital_moments r st).2 } := by
  unfold to_dict
  rw [charges_bounds_ok r st hst, moments_noncollinear r st "total" h4 hst (sel_ok_total r)]

/-- C2: for noncollinear data the direction axis (length 3) of the array
returned by `moments` (and of the spin_moments/orbital_moments entries of
`to_dict`) is relocated to the last axis with the rank-sensitive rule (moved
from position 1 for 4-dimensional arrays, from position 0 for 3-dimensional
ones); consequently a single-step `to_dict()["moments"]` has rank one less
than a sliced one, with direction the final axis in both. -/
theorem magnetism_C2 (r : RawData) (n A O : Nat) (sel : String) (i : Int) (k : Nat)
    (s e : Option Int)
    (hsh : r.spin_moments.shape = [n, 4, A, O])
    (hob : ∀ ob, r.orbital_moments = some ob → ob.shape = [n, 4, A, O])
    (hres : resolve_index n i = some k)
    (hsel : raise_error_if_selection_not_available r sel = .ok ()) :
    (∃ m1, moments r (Steps.single i) sel = .ok (some m1) ∧ m1.shape = [A, O, 3]
      ∧ ∀ j o d, m1.data [j, o, d]
          = (if sel == "orbital" then orbital_entry r k d j o
             else if sel == "spin" then r.spin_moments.data [k, d + 1, j, o]
             else r.spin_moments.data [k, d + 1, j, o] + orbital_entry r k d j o))
    ∧ (∃ m2, moments r (Steps.slice s e) sel = .ok (some m2)
      ∧ m2.shape = [(resolve_slice n s e).2, A, O, 3]
      ∧ ∀ t j o d, m2.data [t, j, o, d]
          = (if sel == "orbital" then orbital_entry r ((resolve_slice n s e).1 + t) d j o
             else if sel == "spin" then
               r.spin_moments.data [(resolve_slice n s e).1 + t, d + 1, j, o]
             else r.spin_moments.data [(resolve_slice n s e).1 + t, d + 1, j, o]
               + orbital_entry r ((resolve_slice n s e).1 + t) d j o))
    ∧ (∃ d1 d2 m1 m2, to_dict r (Steps.single i) = .ok d1
      ∧ to_dict r (Steps.slice s e) = .ok d2
      ∧ d1.moments = some m1 ∧ d2.moments = some m2
      ∧ m1.shape.length + 1 = m2.shape.length
      ∧ m1.shape.getLastD 0 = 3 ∧ m2.shape.getLastD 0 = 3)
    ∧ (∀ ob, r.orbital_moments = some ob →
        ∃ d1 sm om, to_dict r (Steps.single i) = .ok d1
          ∧ d1.spin_moments = some sm ∧ d1.orbital_moments = some om
          ∧ sm.shape = [A, O, 3] ∧ om.shape = [A, O, 3]
          ∧ (∀ j o d, sm.data [j, o, d] = r.spin_moments.data [k, d + 1, j, o])
          ∧ (∀ j o d, om.data [j, o, d] = ob.data [k, d + 1, j, o])) := by
  have h4 : noncollinear r = true := by simp [noncollinear, hsh, dimAt]
  have hsts : steps_within_bounds (dimAt r.spin_moments.shape 0) (Steps.single i) = true := by
    rw [hsh]
    simp [steps_within_bounds, dimAt, hres]
  have hstl : steps_within_bounds (dimAt r.spin_moments.shape 0) (Steps.slice s e) = true := rfl
  obtain ⟨hsg1, hdg1⟩ := noncollinear_moments_single r n A O i k sel hsh hob hres
  obtain ⟨hsg2, hdg2⟩ := noncollinear_moments_slice r n A O s e sel hsh hob
  refine ⟨⟨noncollinear_moments r (Steps.single i) sel,
      moments_noncollinear r (Steps.single i) sel h4 hsts hsel, hsg1, hdg1⟩,
    ⟨noncollinear_moments r (Steps.slice s e) sel,
      moments_noncollinear r (Steps.slice s e) sel h4 hstl hsel, hsg2, hdg2⟩,
    ?_, ?_⟩
  · obtain ⟨hsg1t, _⟩ := noncollinear_moments_single r n A O i k "total" hsh hob hres
    obtain ⟨hsg2t, _⟩ := noncollinear_moments_slice r n A O s e "total" hsh hob
    refine ⟨_, _, noncollinear_moments r (Steps.single i) "total",
      noncollinear_moments r (Steps.slice s e) "total",
      to_dict_noncollinear r (Steps.single i) h4 hsts,
      to_dict_noncollinear r (Steps.slice s e) h4 hstl, rfl, rfl, ?_, ?_, ?_⟩
    · rw [hsg1t, hsg2t]
      rfl
    · rw [hsg1t]
      rfl
    · rw [hsg2t]
      rfl
  · intro ob horb2
    have hobs := hob ob horb2
    have hs := step_comp_tail_single r.spin_moments n 4 A O i k hsh hres
    have hso := step_comp_tail_single ob n 4 A O i k hobs hres
    have hadd : add_spin_and_orbital_moments r (Steps.single i)
        = (some (moveaxis_to_last
            { shape := [4 - 1, A, O],
              data := fun ix => r.spin_moments.data (k :: (ix.headD 0 + 1) :: ix.tail) } 0),
           some (moveaxis_to_last
            { shape := [4 - 1, A, O],
              data := fun ix => ob.data (k :: (ix.headD 0 + 1) :: ix.tail) } 0)) := by
      unfold add_spin_and_orbital_moments
      rw [horb2]
      simp only [hs, hso]
      rfl
    refine ⟨_,
      moveaxis_to_last
        { shape := [4 - 1, A, O],
          data := fun ix => r.spin_moments.data (k :: (ix.headD 0 + 1) :: ix.tail) } 0,
      moveaxis_to_last
        { shape := [4 - 1, A, O],
          data := fun ix => ob.data (k :: (ix.headD 0 + 1) :: ix.tail) } 0,
      to_dict_noncollinear r (Steps.single i) h4 hsts, ?_, ?_, rfl, rfl,
      fun j o d => rfl, fun j o d => rfl⟩
    · show (add_spin_and_orbital_moments r (Steps.single i)).1 = _
      rw [hadd]
    · show (add_spin_and_orbital_moments r (Steps.single i)).2 = _
      rw [hadd]

/-- C2 witness: rank round-trip of `to_dict` moments at concrete
noncollinear data with orbital moments. -/
theorem magnetism_C2_witness :
    ∃ d1 d2 m1 m2, to_dict r_nco (Steps.single 0) = .ok d1
      ∧ to_dict r_nco (Steps.slice none none) = .ok d2
      ∧ d1.moments = some m1 ∧ d2.moments = some m2
      ∧ m1.shape.length + 1 = m2.shape.length
      ∧ m1.shape.getLastD 0 = 3 ∧ m2.shape.getLastD 0 = 3 :=
  (magnetism_C2 r_nco 1 1 1 "total" 0 0 none none rfl
    (fun ob h => by injection h with h2; rw [← h2]; rfl) rfl rfl).2.2.1

lemma step_comp_single (a : NDArray) (n c2 A O : Nat) (i : Int) (k c : Nat)
    (hsh : a.shape = [n, c2, A, O]) (hres : resolve_index n i = some k) :
    step_comp a (Steps.single i) c
      = { shape := [A, O], data := fun ix => a.data (k :: c :: ix) } := by
  simp [step_comp, hsh, dimAt, hres]

lemma step_comp_slice (a : NDArray) (n c2 A O : Nat) (s e : Option Int) (c : Nat)
    (hsh : a.shape = [n, c2, A, O]) :
    step_comp a (Steps.slice s e) c
      = { shape := [(resolve_slice n s e).2, A, O],
          data := fun ix =>
            a.data (((resolve_slice n s e).1 + ix.headD 0) :: c :: ix.tail) } := by
  simp [step_comp, hsh, dimAt]

/-- C9: the string rendering renders `total_moments` of the default (total)
selection: absent data yields "not spin polarized"; a single vector yields
one line of space-joined 2-decimal values behind "MAGMOM = "; one vector per
step yields one joined line per step separated by a line continuation and
fixed indentation. -/
theorem magnetism_C9 (r : RawData) (n A O : Nat) (st : Steps)
    (hst : steps_within_bounds (dimAt r.spin_moments.shape 0) st = true) :
    (r.spin_moments.shape = [n, 1, A, O] →
      str_of_magnetism r st = .ok "not spin polarized")
    ∧ (r.spin_moments.shape = [n, 2, A, O] → ∀ i k, st = Steps.single i →
        resolve_index n i = some k →
        str_of_magnetism r st = .ok ("MAGMOM = " ++ String.intercalate " "
          ((List.range A).map (fun j =>
            format_moment (∑ o ∈ Finset.range O, r.spin_moments.data [k, 1, j, o])))))
    ∧ (r.spin_moments.shape = [n, 2, A, O] → ∀ s e, st = Steps.slice s e →
        str_of_magnetism r st = .ok ("MAGMOM = " ++
          String.intercalate " \\\n         "
          ((List.range (resolve_slice n s e).2).map (fun t => String.intercalate " "
            ((List.range A).map (fun j =>
              format_moment (∑ o ∈ Finset.range O,
                r.spin_moments.data [(resolve_slice n s e).1 + t, 1, j, o]))))))) := by
  refine ⟨?_, ?_, ?_⟩
  · intro hsh
    have h1 : only_charge r = true := by simp [only_charge, hsh, dimAt]
    have hm := moments_only_charge r st "total" h1 hst (sel_ok_total r)
    unfold str_of_magnetism total_moments
    rw [hm]
    simp [sum_over_orbitals]
  · intro hsh i k hst2 hres
    subst hst2
    have h2 : spin_polarized r = true := by simp [spin_polarized, hsh, dimAt]
    have hnc : noncollinear r = false := by simp [noncollinear, hsh, dimAt]
    have hm := moments_collinear r (Steps.single i) "total" h2 hst (sel_ok_total r)
    have hcs := step_comp_single r.spin_moments n 2 A O i k 1 hsh hres
    unfold str_of_magnetism total_moments
    rw [hm]
    unfold collinear_moments
    rw [hcs]
    simp [sum_over_orbitals, hnc, sum_axis, eraseAt, dimAt, insertAt]
  · intro hsh s e hst2
    subst hst2
    have h2 : spin_polarized r = true := by simp [spin_polarized, hsh, dimAt]
    have hnc : noncollinear r = false := by simp [noncollinear, hsh, dimAt]
    have hm := moments_collinear r (Steps.slice s e) "total" h2 hst (sel_ok_total r)
    have hcs := step_comp_slice r.spin_moments n 2 A O s e 1 hsh
    unfold str_of_magnetism total_moments
    rw [hm]
    unfold collinear_moments
    rw [hcs]
    simp [sum_over_orbitals, hnc, sum_axis, eraseAt, dimAt, insertAt]

/-- C9 witness: concrete collinear data with total moments
`[1.234, -0.005, 0.5]` at the default (last) step renders as the specified
example line. -/
theorem magnetism_C9_witness :
    str_of_magnetism r_collinear (Steps.single (-1))
      = .ok "MAGMOM = 1.23 -0.01 0.50" := by
  have f1 : format_moment ((1234 : ℚ) / 1000) = "1.23" := by
    have hm : round_half_away ((1234 : ℚ) / 1000 * 100) = 123 := by
      unfold round_half_away
      rw [if_pos (by norm_num), Int.floor_eq_iff]
      constructor <;> norm_num
    unfold format_moment
    rw [hm]
    rfl
  have f2 : format_moment (-5 / 1000 : ℚ) = "-0.01" := by
    have hm : round_half_away ((-5 / 1000 : ℚ) * 100) = -1 := by
      unfold round_half_away
      rw [if_neg (by norm_num),
        show ((1 : ℚ) / 2 - (-5 / 1000 : ℚ) * 100) = 1 by norm_num]
      norm_num
    unfold format_moment
    rw [hm]
    rfl
  have f3 : format_moment ((1 : ℚ) / 2) = "0.50" := by
    have hm : round_half_away ((1 : ℚ) / 2 * 100) = 50 := by
      unfold round_half_away
      rw [if_pos (by norm_num), Int.floor_eq_iff]
      constructor <;> norm_num
    unfold format_moment
    rw [hm]
    rfl
  have h := (magnetism_C9 r_collinear 1 3 1 (Steps.single (-1)) (by decide)).2.1
    rfl (-1) 0 rfl (by decide)
  rw [h]
  simp only [Finset.sum_range_one]
  show Except.ok ("MAGMOM = " ++ String.intercalate " "
    [format_moment ((1234 : ℚ) / 1000), format_moment (-5 / 1000 : ℚ),
     format_moment ((1 : ℚ) / 2)]) = _
  rw [f1, f2, f3]
  rfl

lemma norm_row_r_smul (c : ℝ) (hc : 0 ≤ c) (a : NDArray) (i j : Nat) :
    norm_row_r (smul_r c a) i j = c * norm_row a i j := by
  unfold norm_row_r smul_r norm_row
  calc Real.sqrt (∑ k ∈ Finset.range (dimAt a.shape 2), (c * (a.data [i, j, k] : ℝ)) ^ 2)
      = Real.sqrt (c ^ 2 * ∑ k ∈ Finset.range (dimAt a.shape 2),
          ((a.data [i, j, k] : ℝ)) ^ 2) := by
        rw [Finset.mul_sum]
        congr 1
        refine Finset.sum_congr rfl fun k _ => by ring
    _ = c * Real.sqrt (∑ k ∈ Finset.range (dimAt a.shape 2),
          ((a.data [i, j, k] : ℝ)) ^ 2) := by
        rw [Real.sqrt_mul (sq_nonneg c), Real.sqrt_sq hc]

lemma max_length_r_smul (c : ℝ) (hc : 0 ≤ c) (a : NDArray) :
    max_length_r (smul_r c a) = c * max_length_moments (some a) := by
  have hsh : (smul_r c a).shape = a.shape := rfl
  simp only [max_length_r, max_length_moments, hsh]
  by_cases h : (Finset.range (dimAt a.shape 0) ×ˢ Finset.range (dimAt a.shape 1)).Nonempty
  · rw [dif_pos h, dif_pos h,
      Finset.comp_sup'_eq_sup'_comp h (fun x => c * x) (fun x y => mul_max_of_nonneg x y hc)]
    exact Finset.sup'_congr h rfl (fun p _ => norm_row_r_smul c hc a p.1 p.2)
  · rw [dif_neg h, dif_neg h, mul_zero]

lemma max_length_single (a : NDArray) (h0 : dimAt a.shape 0 = 1) (h1 : dimAt a.shape 1 = 1) :
    max_length_moments (some a) = norm_row a 0 0 := by
  simp only [max_length_moments]
  rw [h0, h1, dif_pos ⟨(0, 0), by decide⟩]
  have hset : (Finset.range 1 ×ˢ Finset.range 1 : Finset (Nat × Nat)) = {(0, 0)} := by
    decide
  rw [Finset.sup'_congr _ hset (fun p _ => rfl), Finset.sup'_singleton]

/-- C3: the display overlay for `to_view` rescales every vector by exactly
1.5/M when the maximum Euclidean norm M of the 3-vector-promoted total
moments exceeds 1e-15, so the maximum norm becomes exactly 1.5; otherwise
the absent value is returned (and no arrows are drawn).  Statements are
scoped to nonempty step/atom index ranges, where the maximum exists. -/
theorem magnetism_C3 (r : RawData) (st : Steps) (sel : String) (tm : Option NDArray)
    (hok : total_moments r st sel = .ok tm)
    (_hne : ∀ a, promoted_moments st tm = some a →
      (Finset.range (dimAt a.shape 0) ×ˢ Finset.range (dimAt a.shape 1)).Nonempty) :
    ((1 : ℝ) / 10 ^ 15 < max_length_moments (promoted_moments st tm) →
      ∀ a, promoted_moments st tm = some a →
        prepare_magnetic_moments_for_plotting r st sel
          = .ok (some (smul_r (length_moments / max_length_moments (some a)) a))
        ∧ max_length_r (smul_r (length_moments / max_length_moments (some a)) a)
            = length_moments)
    ∧ (max_length_moments (promoted_moments st tm) ≤ 1 / 10 ^ 15 →
        prepare_magnetic_moments_for_plotting r st sel = .ok none) := by
  constructor
  · intro hgt a ha
    rw [ha] at hgt
    have hMpos : (0 : ℝ) < max_length_moments (some a) := lt_trans (by norm_num) hgt
    constructor
    · unfold prepare_magnetic_moments_for_plotting
      simp only [hok]
      rw [ha, if_pos hgt]
      rfl
    · have hc : 0 ≤ length_moments / max_length_moments (some a) :=
        div_nonneg (by norm_num [length_moments]) (le_of_lt hMpos)
      rw [max_length_r_smul _ hc a]
      exact div_mul_cancel₀ _ (ne_of_gt hMpos)
  · intro hle
    unfold prepare_magnetic_moments_for_plotting
    simp only [hok]
    rw [if_neg (not_lt.mpr hle)]

lemma m3_nc_entry0 : m3_nc.data [0, 0, 0] = 3 := by
  have h1 : m3_nc.data [0, 0, 0]
      = ∑ j ∈ Finset.range 1,
          (noncollinear_moments r_nc (Steps.single 0) "total").data (insertAt 1 j [0, 0]) :=
    rfl
  rw [h1, Finset.sum_range_one]
  show (3 : ℚ) + 0 = 3
  norm_num

lemma m3_nc_entry1 : m3_nc.data [0, 0, 1] = 4 := by
  have h1 : m3_nc.data [0, 0, 1]
      = ∑ j ∈ Finset.range 1,
          (noncollinear_moments r_nc (Steps.single 0) "total").data (insertAt 1 j [0, 1]) :=
    rfl
  rw [h1, Finset.sum_range_one]
  show (4 : ℚ) + 0 = 4
  norm_num

lemma m3_nc_entry2 : m3_nc.data [0, 0, 2] = 0 := by
  have h1 : m3_nc.data [0, 0, 2]
      = ∑ j ∈ Finset.range 1,
          (noncollinear_moments r_nc (Steps.single 0) "total").data (insertAt 1 j [0, 2]) :=
    rfl
  rw [h1, Finset.sum_range_one]
  show (0 : ℚ) + 0 = 0
  norm_num

lemma max_length_m3_nc : max_length_moments (some m3_nc) = 5 := by
  rw [max_length_single m3_nc rfl rfl]
  unfold norm_row
  rw [show dimAt m3_nc.shape 2 = 3 from rfl]
  rw [Finset.sum_range_succ, Finset.sum_range_succ, Finset.sum_range_one]
  rw [m3_nc_entry0, m3_nc_entry1, m3_nc_entry2]
  have h25 : ((3 : ℚ) : ℝ) ^ 2 + ((4 : ℚ) : ℝ) ^ 2 + ((0 : ℚ) : ℝ) ^ 2 = 5 ^ 2 := by
    push_cast
    norm_num
  rw [h25]
  exact Real.sqrt_sq (by norm_num)

/-- C3 witness: for the concrete noncollinear data with spin vector
`(3, 4, 0)` the maximum norm is 5 and the display overlay is the moments
rescaled by 1.5/5, whose maximum norm is exactly 1.5. -/
theorem magnetism_C3_witness :
    prepare_magnetic_moments_for_plotting r_nc (Steps.single 0) "total"
      = .ok (some (smul_r (length_moments / max_length_moments (some m3_nc)) m3_nc))
    ∧ max_length_r (smul_r (length_moments / max_length_moments (some m3_nc)) m3_nc)
        = length_moments
    ∧ max_length_moments (some m3_nc) = 5 := by
  have hprom : promoted_moments (Steps.single 0) (some tm_nc) = some m3_nc := rfl
  have hne : ∀ a, promoted_moments (Steps.single 0) (some tm_nc) = some a →
      (Finset.range (dimAt a.shape 0) ×ˢ Finset.range (dimAt a.shape 1)).Nonempty := by
    intro a ha
    rw [hprom] at ha
    injection ha with h2
    rw [← h2]
    decide
  have h := magnetism_C3 r_nc (Steps.single 0) "total" (some tm_nc) rfl hne
  rw [hprom] at h
  have hgt : (1 : ℝ) / 10 ^ 15 < max_length_moments (some m3_nc) := by
    rw [max_length_m3_nc]
    norm_num
  obtain ⟨he, hmax⟩ := h.1 hgt m3_nc rfl
  exact ⟨he, hmax, max_length_m3_nc⟩
